import Mathlib

set_option maxRecDepth 1000000

/-!
Verification of the S3M module parser and renderer (s3mtowav.py).

The source is shallowly embedded: byte buffers are `List ℕ` (each entry a
byte value 0..255), Python floats are modelled as exact rationals `ℚ`,
Python `int()` truncation is `pyInt`, Python list indexing (including the
negative-index convention and `IndexError`) is `pyIndex`, and functions
that can raise are `Except String`.
-/

namespace S3M

/-- Python `int(q)` on a rational: truncation toward zero. -/
def pyInt (q : ℚ) : ℤ := q.num.tdiv (q.den : ℤ)

/-- Python sequence indexing `l[i]`: negative indices count from the end,
out-of-range access raises `IndexError` (modelled as `none`). -/
def pyIndex (l : List ℕ) (i : ℤ) : Option ℕ :=
  if 0 ≤ i then l.get? i.toNat
  else if (l.length : ℤ) + i < 0 then none
  else l.get? ((l.length : ℤ) + i).toNat

/-- Bytes decoded with `decode('ascii', errors='ignore')`: bytes ≥ 128 are dropped. -/
def asciiIgnore (l : List ℕ) : List ℕ := l.filter (fun b => b < 128)

/-- Python `rstrip('\x00')`: drop trailing zero bytes. -/
def rstrip0 (l : List ℕ) : List ℕ := (l.reverse.dropWhile (fun b => b = 0)).reverse

/-- Little-endian 16-bit read at byte offset `i` (struct format `<H`). -/
def u16 (data : List ℕ) (i : ℕ) : ℕ := data.getD i 0 + 256 * data.getD (i+1) 0

/-- Little-endian 32-bit read at byte offset `i` (struct format `<L`). -/
def u32 (data : List ℕ) (i : ℕ) : ℕ := u16 data i + 65536 * u16 data (i+2)

/-- The consecutive `<H` values of `struct.unpack` on a table of `n` 16-bit entries. -/
def u16Table (data : List ℕ) (start n : ℕ) : List ℕ :=
  (List.range n).map (fun i => u16 data (start + 2*i))

/-- Line 96 of the source: `(b + 128) & 0xFF`, the signed-to-unsigned sample remap. -/
def storeByte (b : ℕ) : ℕ := (b + 128) &&& 255

/-- The signed 8-bit PCM value encoded by a raw byte (two's complement). -/
def signedVal (b : ℕ) : ℤ := if b < 128 then (b : ℤ) else (b : ℤ) - 256

/-- One parsed instrument (the dict built at lines 97-104 of the source). -/
structure Instrument where
  name : List ℕ
  sample : List ℕ
  length : ℕ
  loop_begin : ℕ
  loop_end : ℕ
  volume : ℚ
deriving DecidableEq, Repr

/-- One pattern event (the dict built at line 165 of the source); `none`
fields are Python `None`. -/
structure Event where
  note : Option ℕ
  instrument : Option ℕ
  volume : Option ℕ
  effect : Option (ℕ × ℕ)
deriving DecidableEq, Repr

/-- A pattern row: one slot per channel, `none` for an empty slot. -/
abbrev Row := List (Option Event)

/-- The parsed module: the parser state after `read_s3m` succeeds. -/
structure Module where
  title : List ℕ
  orders : List ℕ
  instruments : List Instrument
  patterns : List (List Row)
  channels : ℕ
  tempo : ℕ
  speed : ℕ
  sample_rate : ℕ
deriving DecidableEq, Repr

/-- Decode the events of one row from the packed stream (the `while` loop at
lines 128-165).  `fuel` is an upper bound on the number of loop iterations;
every iteration consumes at least one byte, so callers pass
`bytes.length + 1` and the fuel-exhausted branch is unreachable.  Returns
the finished row and the remaining stream (the value of `i` in the source,
as the corresponding suffix). -/
def decodeRow : ℕ → List ℕ → Row → Row × List ℕ
  | 0, bytes, row => (row, bytes)
  | Nat.succ fuel, bytes, row =>
    match bytes with
    | [] => (row, [])
    | b :: rest =>
      if b = 0 then (row, rest)
      else
        let channel := b &&& 31
        match (if b &&& 32 ≠ 0 then
                 match rest with
                 | n :: k :: r => some (some n, some k, r)
                 | _ => none
               else some (none, none, rest)) with
        | none => (row, rest)
        | some (note, instr, r2) =>
          match (if b &&& 64 ≠ 0 then
                   match r2 with
                   | v :: r => some (some v, r)
                   | _ => none
                 else some (none, r2)) with
          | none => (row, r2)
          | some (vol, r3) =>
            match (if b &&& 128 ≠ 0 then
                     match r3 with
                     | x :: y :: r => some (some (x, y), r)
                     | _ => none
                   else some (none, r3)) with
            | none => (row, r3)
            | some (eff, r4) =>
              decodeRow fuel r4 (row.set channel (some ⟨note, instr, vol, eff⟩))

/-- Decode `n` rows from the packed stream (the `for row_idx in range(64)`
loop), threading the stream position across rows exactly as the source does. -/
def decodeRows (channels : ℕ) : ℕ → List ℕ → List Row × List ℕ
  | 0, bytes => ([], bytes)
  | Nat.succ n, bytes =>
    let rf := decodeRow (bytes.length + 1) bytes (List.replicate channels none)
    let rest := decodeRows channels n rf.2
    (rf.1 :: rest.1, rest.2)

/-- Decode one pattern's packed stream into its 64 rows (lines 122-166). -/
def decodePattern (channels : ℕ) (packed : List ℕ) : List Row :=
  (decodeRows channels 64 packed).1

/-- The instrument-parsing loop (lines 78-107): each pointer is converted
from paragraphs to bytes; out-of-range records, non-type-1 records and
oversized sample ranges are skipped; surviving instruments are appended in
order to a single list. -/
def parseInstruments (data : List ℕ) : List ℕ → List Instrument
  | [] => []
  | ptr :: rest =>
    let p := ptr * 16
    if data.length < p + 24 then parseInstruments data rest
    else if data.getD p 0 = 1 then
      let iname := rstrip0 (asciiIgnore ((data.drop (p+1)).take 12))
      let sample_ptr := u32 data (p+13) * 16
      let sample_len := u16 data (p+17)
      let lbegin := u16 data (p+19)
      let lend := u16 data (p+21)
      let vol := data.getD (p+23) 0
      if data.length < sample_ptr + sample_len then parseInstruments data rest
      else
        { name := iname
          sample := ((data.drop sample_ptr).take sample_len).map storeByte
          length := sample_len
          loop_begin := lbegin
          loop_end := lend
          volume := (vol : ℚ) / 64 } :: parseInstruments data rest
    else parseInstruments data rest

/-- The pattern-parsing loop (lines 110-170): each pointer is converted from
paragraphs to bytes; out-of-range pointers and oversized packed streams are
skipped; surviving patterns are decoded and appended in order. -/
def parsePatterns (data : List ℕ) : List ℕ → List (List Row)
  | [] => []
  | ptr :: rest =>
    let p := ptr * 16
    if data.length < p + 2 then parsePatterns data rest
    else
      let packed_len := u16 data p
      if data.length < p + 2 + packed_len then parsePatterns data rest
      else decodePattern 32 ((data.drop (p+2)).take packed_len) :: parsePatterns data rest

/-- The whole-module parse (`read_s3m`, lines 42-170, file I/O excluded):
the three fatal checks, then the header fields, pointer tables, instruments
and patterns.  The parser fields that `__init__` fixes (channels 32, tempo
125, speed 6, sample rate 44100) are carried in the result. -/
def read_s3m (data : List ℕ) : Except String Module :=
  if data.length < 96 then .error "File too small to be a valid S3M"
  else
    let title := rstrip0 (asciiIgnore (data.take 28))
    let num_orders := u16 data 28
    let num_instruments := u16 data 30
    let num_patterns := u16 data 32
    if data.length < 96 + num_orders then .error "Order list exceeds file size"
    else
      let inst_ptr_start := 96 + num_orders
      let pattern_ptr_start := inst_ptr_start + 2 * num_instruments
      if data.length < pattern_ptr_start + 2 * num_patterns then
        .error "Pattern pointers exceed file size"
      else
        .ok { title := title
              orders := (data.drop 96).take num_orders
              instruments := parseInstruments data (u16Table data inst_ptr_start num_instruments)
              patterns := parsePatterns data (u16Table data pattern_ptr_start num_patterns)
              channels := 32
              tempo := 125
              speed := 6
              sample_rate := 44100 }

/-- Per-channel playback state (the dicts built at line 176). -/
structure ChannelState where
  sample_pos : ℚ
  increment : ℚ
  volume : ℚ
  playing : Bool
  instrument : Option Instrument
deriving DecidableEq, Repr

/-- The initial state of one channel. -/
def initState : ChannelState := ⟨0, 0, 0, false, none⟩

/-- The renderer's fresh channel-state array. -/
def initStates (n : ℕ) : List ChannelState := List.replicate n initState

/-- The S3M note table of `note_to_freq` (line 186), as exact rationals. -/
def noteTable : List ℚ :=
  [26163/100, 27718/100, 29366/100, 31113/100, 32963/100, 34923/100,
   36999/100, 39200/100, 41530/100, 44000/100, 46616/100, 49388/100]

/-- The frequency of a note byte (`note_to_freq`, lines 179-193): high
nibble octave, low nibble semitone; `None` and 254 (key off) and semitones
≥ 12 give 0. -/
def note_to_freq (note : Option ℕ) (c2spd : ℚ) : ℚ :=
  match note with
  | none => 0
  | some n =>
    if n = 254 then 0
    else
      let octave := n >>> 4
      let s := n &&& 15
      if 12 ≤ s then 0
      else noteTable.getD s 0 * (2:ℚ) ^ ((octave : ℤ) - 4) * c2spd / 8363

/-- Event handling for one channel of one row (lines 212-225): key-off
clears `playing`; a note plus a valid nonzero instrument reference
re-triggers the channel; anything else leaves the state untouched. -/
def processEvent (insts : List Instrument) (rate : ℕ) (st : ChannelState)
    (ev : Option Event) : ChannelState :=
  match ev with
  | none => st
  | some e =>
    match e.note with
    | none => st
    | some n =>
      if n = 254 then { st with playing := false }
      else
        match e.instrument with
        | none => st
        | some k =>
          if k = 0 then st
          else if h : k - 1 < insts.length then
            let inst := insts.get ⟨k - 1, h⟩
            { sample_pos := 0
              increment := note_to_freq (some n) 8363 / (rate : ℚ)
              volume := match e.volume with
                        | some v => (v : ℚ) / 64
                        | none => inst.volume
              playing := true
              instrument := some inst }
          else st

/-- The per-row event pass (the `for ch, event in enumerate(row)` loop at
lines 211-225): each channel's state is updated from its own slot only. -/
def processRow (insts : List Instrument) (rate : ℕ) :
    List ChannelState → Row → List ChannelState
  | [], _ => []
  | states, [] => states
  | st :: states, ev :: evs =>
    processEvent insts rate st ev :: processRow insts rate states evs

/-- One channel's contribution to one output sample (lines 231-243):
truncate the position, wrap past-the-end positions into the loop or stop
the channel, read the sample byte (`IndexError` becomes `.error`), and
advance the position. -/
def mixOne (st : ChannelState) : Except String (ℚ × ChannelState) :=
  match st.instrument with
  | none => .ok (0, st)
  | some inst =>
    if st.playing then
      let pos : ℤ := pyInt st.sample_pos
      if (inst.length : ℤ) ≤ pos then
        if inst.loop_begin < inst.loop_end then
          let wrapped : ℤ :=
            (inst.loop_begin : ℤ) + (pos - (inst.loop_end : ℤ)) %
              ((inst.loop_end : ℤ) - (inst.loop_begin : ℤ))
          match pyIndex inst.sample wrapped with
          | none => .error "index out of range"
          | some b =>
            .ok (((b : ℚ) - 128) * st.volume,
                 { st with sample_pos := st.sample_pos + st.increment })
        else .ok (0, { st with playing := false })
      else
        match pyIndex inst.sample pos with
        | none => .error "index out of range"
        | some b =>
          .ok (((b : ℚ) - 128) * st.volume,
               { st with sample_pos := st.sample_pos + st.increment })
    else .ok (0, st)

/-- The channel-summing loop for one output sample (lines 229-243),
accumulating left to right as the source does. -/
def mixChannels (acc : ℚ) : List ChannelState → Except String (ℚ × List ChannelState)
  | [] => .ok (acc, [])
  | st :: rest =>
    match mixOne st with
    | .error e => .error e
    | .ok (c, st') =>
      match mixChannels (acc + c) rest with
      | .error e => .error e
      | .ok (s, rest') => .ok (s, st' :: rest')

/-- Line 244 of the source: `max(min(int(sample * 128 + 128), 255), 0)`. -/
def pcmByte (s : ℚ) : ℕ := (max (min (pyInt (s * 128 + 128)) 255) 0).toNat

/-- The spec's stated conversion, `clamp(round(sum * 128 + 128), 0, 255)`:
identical to `pcmByte` except that the scaled sum is rounded to the nearest
integer instead of truncated. -/
def pcmRoundByte (s : ℚ) : ℕ := (max (min (round (s * 128 + 128)) 255) 0).toNat

/-- The per-row sample loop (lines 228-245): `n` output samples, each the
converted channel sum, threading the channel states. -/
def renderRowAudio : ℕ → List ChannelState → Except String (List ℕ × List ChannelState)
  | 0, states => .ok ([], states)
  | Nat.succ n, states =>
    match mixChannels 0 states with
    | .error e => .error e
    | .ok (s, states') =>
      match renderRowAudio n states' with
      | .error e => .error e
      | .ok (out, states'') => .ok (pcmByte s :: out, states'')

/-- The per-pattern row loop (lines 208-245): apply the row's trigger
events, then render `T` samples for the row. -/
def renderRows (insts : List Instrument) (rate T : ℕ) :
    List Row → List ChannelState → Except String (List ℕ × List ChannelState)
  | [], states => .ok ([], states)
  | row :: rows, states =>
    match renderRowAudio T (processRow insts rate states row) with
    | .error e => .error e
    | .ok (a, s1) =>
      match renderRows insts rate T rows s1 with
      | .error e => .error e
      | .ok (b, s2) => .ok (a ++ b, s2)

/-- The order-list loop (lines 202-245): out-of-range pattern indices are
skipped outright; in-range patterns render their rows in sequence. -/
def renderOrders (insts : List Instrument) (patterns : List (List Row)) (rate T : ℕ) :
    List ℕ → List ChannelState → Except String (List ℕ × List ChannelState)
  | [], states => .ok ([], states)
  | o :: os, states =>
    if o < patterns.length then
      match renderRows insts rate T (patterns.getD o []) states with
      | .error e => .error e
      | .ok (a, s1) =>
        match renderOrders insts patterns rate T os s1 with
        | .error e => .error e
        | .ok (b, s2) => .ok (a ++ b, s2)
    else renderOrders insts patterns rate T os states

/-- The whole `render` (lines 195-247): timing constants computed once with
integer floor division, then the order loop from fresh channel states. -/
def render (m : Module) : Except String (List ℕ) :=
  let T := m.speed * (m.sample_rate / (m.tempo * 4 / 60))
  match renderOrders m.instruments m.patterns m.sample_rate T m.orders (initStates m.channels) with
  | .error e => .error e
  | .ok (out, _) => .ok out

/-- The core of `convert_s3m_to_wav` (lines 278-285, file I/O excluded):
parse the buffer, then render the module. -/
def convert (data : List ℕ) : Except String (List ℕ) :=
  match read_s3m data with
  | .error e => .error e
  | .ok m => render m

/-- Modelled from the spec: the per-row sample loop with the spec's stated
conversion `clamp(round(sum * 128 + 128), 0, 255)` in place of the source's
truncating conversion; otherwise identical to `renderRowAudio`. -/
def renderRowAudioSpec : ℕ → List ChannelState → Except String (List ℕ × List ChannelState)
  | 0, states => .ok ([], states)
  | Nat.succ n, states =>
    match mixChannels 0 states with
    | .error e => .error e
    | .ok (s, states') =>
      match renderRowAudioSpec n states' with
      | .error e => .error e
      | .ok (out, states'') => .ok (pcmRoundByte s :: out, states'')

/-- Modelled from the spec: the row loop over `renderRowAudioSpec`. -/
def renderRowsSpec (insts : List Instrument) (rate T : ℕ) :
    List Row → List ChannelState → Except String (List ℕ × List ChannelState)
  | [], states => .ok ([], states)
  | row :: rows, states =>
    match renderRowAudioSpec T (processRow insts rate states row) with
    | .error e => .error e
    | .ok (a, s1) =>
      match renderRowsSpec insts rate T rows s1 with
      | .error e => .error e
      | .ok (b, s2) => .ok (a ++ b, s2)

/-- Modelled from the spec: the order loop over `renderRowsSpec`. -/
def renderOrdersSpec (insts : List Instrument) (patterns : List (List Row)) (rate T : ℕ) :
    List ℕ → List ChannelState → Except String (List ℕ × List ChannelState)
  | [], states => .ok ([], states)
  | o :: os, states =>
    if o < patterns.length then
      match renderRowsSpec insts rate T (patterns.getD o []) states with
      | .error e => .error e
      | .ok (a, s1) =>
        match renderOrdersSpec insts patterns rate T os s1 with
        | .error e => .error e
        | .ok (b, s2) => .ok (a ++ b, s2)
    else renderOrdersSpec insts patterns rate T os states

/-- Modelled from the spec: `render` with the rounding PCM conversion. -/
def renderSpec (m : Module) : Except String (List ℕ) :=
  let T := m.speed * (m.sample_rate / (m.tempo * 4 / 60))
  match renderOrdersSpec m.instruments m.patterns m.sample_rate T m.orders (initStates m.channels) with
  | .error e => .error e
  | .ok (out, _) => .ok out

/-- The frequency of linear note index `k` (octave `k / 12`, semitone
`k % 12`) before the `c2spd / 8363` factor; `note_to_freq` factors through
this map. -/
def noteVal (k : ℕ) : ℚ :=
  noteTable.getD (k % 12) 0 * (2:ℚ) ^ (((k / 12 : ℕ) : ℤ) - 4)

/-- A rational of the form `k / 64` with `k : ℕ` — the shape of every
volume the renderer ever stores (event volume byte or instrument default). -/
def vol64 (q : ℚ) : Prop := ∃ k : ℕ, q = (k : ℚ) / 64

/-- A rational that is an integer multiple of `1 / 64` — the shape of every
per-sample channel sum. -/
def sum64 (q : ℚ) : Prop := ∃ z : ℤ, q * 64 = (z : ℚ)

/-- All channel volumes in the list have the `k / 64` shape. -/
def statesVol64 (l : List ChannelState) : Prop := ∀ st ∈ l, vol64 st.volume

/-- All instrument default volumes have the `k / 64` shape. -/
def instsVol64 (l : List Instrument) : Prop := ∀ i ∈ l, vol64 i.volume

/-- A minimal valid buffer: 96 zero bytes, hence zero orders, instruments
and patterns. -/
def minBuf : List ℕ := List.replicate 96 0

/-- The module `read_s3m` produces from `minBuf`. -/
def minM : Module :=
  { title := [], orders := [], instruments := [], patterns := []
    channels := 32, tempo := 125, speed := 6, sample_rate := 44100 }

/-- A 150-byte buffer with one order, one pattern and one instrument whose
sample is empty (`sample_len = 0`) but whose loop bounds are `loop_begin =
0 < loop_end = 5`; the single pattern triggers that instrument with note
`0x40` on channel 0 in row 0. -/
def buf150 : List ℕ :=
  List.replicate 28 0 ++ [1,0,1,0,1,0] ++ List.replicate 62 0 ++
  [0, 7,0, 9,0] ++ List.replicate 11 0 ++ [1] ++ List.replicate 12 0 ++
  [0,0,0,0, 0,0, 0,0, 5,0, 64] ++ List.replicate 8 0 ++ [4,0, 32,64,1,0]

/-- A 182-byte buffer with two instrument pointer-table entries: the first
points at a type-0 record (skipped by the parser), the second at a valid
type-1 record with a 2-byte sample; the single pattern's row 0 carries note
`0x40` with stored instrument index 2 on channel 0. -/
def bufC3 : List ℕ :=
  List.replicate 28 0 ++ [1,0,2,0,1,0] ++ List.replicate 62 0 ++
  [0, 7,0, 9,0, 11,0] ++ List.replicate 9 0 ++ [0] ++ List.replicate 31 0 ++
  [1] ++ List.replicate 12 0 ++ [0,0,0,0, 2,0, 0,0, 0,0, 64] ++
  List.replicate 8 0 ++ [4,0, 32,64,2,0]

/-- A concrete instrument used by witnesses: a 1-byte sample (stored value
128, i.e. signed 0), no loop, full default volume. -/
def wInst : Instrument := ⟨[], [128], 1, 0, 0, 1⟩

deriving instance DecidableEq for Except

/-! Helper lemmas -/

/-- An absent event leaves the channel state untouched. -/
theorem processEvent_none (insts : List Instrument) (rate : ℕ) (st : ChannelState) :
    processEvent insts rate st none = st := rfl

/-- The per-row event pass is channel-local: slot `j` of the result depends
only on state `j` and slot `j` of the row. -/
theorem processRow_get? (insts : List Instrument) (rate : ℕ) :
    ∀ (states : List ChannelState) (row : Row) (j : ℕ),
      (processRow insts rate states row).get? j =
        (states.get? j).map (fun st => processEvent insts rate st (row.getD j none)) := by
  intro states
  induction states with
  | nil => intro row j; cases row <;> simp [processRow]
  | cons st sts ih =>
    intro row j
    cases row with
    | nil =>
      cases j with
      | zero => simp [processRow, processEvent_none]
      | succ j =>
        simp only [processRow, List.get?]
        cases h : sts.get? j <;> simp [processEvent_none, h, List.getD]
    | cons e es =>
      cases j with
      | zero => simp [processRow, List.getD]
      | succ j => simpa [processRow, List.getD] using ih es j

end S3M

namespace S3M

/-! Claim C8 -/

/-- Claim C8: for every raw sample byte `b`, storing it as
`(b + 128) & 0xFF` during parsing and reading it back as `stored - 128` in
the mixer reconstructs exactly the signed 8-bit value that `b` encodes. -/
theorem sample_byte_roundtrip (b : ℕ) (hb : b < 256) :
    ((storeByte b : ℕ) : ℤ) - 128 = signedVal b := by
  have h : (b + 128) &&& 255 = (b + 128) % 256 := by
    have := Nat.and_pow_two_sub_one_eq_mod (b + 128) 8
    norm_num at this
    exact this
  unfold storeByte signedVal
  rw [h]
  split <;> omega

/-- Witness for C8 at the concrete byte 200 (signed value -56). -/
theorem sample_byte_roundtrip_witness :
    200 < 256 ∧ ((storeByte 200 : ℕ) : ℤ) - 128 = signedVal 200 :=
  ⟨by decide, sample_byte_roundtrip 200 (by decide)⟩

/-! Claim C4 -/

/-- Claim C4: `read_s3m` fails exactly when the buffer is under 96 bytes or
the order list, instrument pointer table or pattern pointer table would
read past the end of the buffer; every other buffer parses successfully.
(The header count fields at offset 28 always decode once the buffer has at
least 96 bytes, so that fatal condition of the claim is vacuous; the
instrument-table disjunct is subsumed by the pattern-table one because the
pattern table starts where the instrument table ends.) -/
theorem parse_failure_iff (data : List ℕ) :
    (read_s3m data).isOk = false ↔
      data.length < 96
      ∨ data.length < 96 + u16 data 28
      ∨ data.length < 96 + u16 data 28 + 2 * u16 data 30
      ∨ data.length < 96 + u16 data 28 + 2 * u16 data 30 + 2 * u16 data 32 := by
  by_cases h1 : data.length < 96
  · simp [read_s3m, h1, Except.isOk, Except.toBool]
  · by_cases h2 : data.length < 96 + u16 data 28
    · simp [read_s3m, h1, h2, Except.isOk, Except.toBool]
    · by_cases h3 : data.length < 96 + u16 data 28 + 2 * u16 data 30 + 2 * u16 data 32
      · simp [read_s3m, h1, h2, h3, Except.isOk, Except.toBool]
      · simp [read_s3m, h1, h2, h3, Except.isOk, Except.toBool]
        omega

/-! Claim C9 -/

/-- Claim C9: a key-off event (note 254) on channel `ch` only clears that
channel's `playing` flag — its position, increment, volume and instrument
are untouched — and removing the event from the row changes no other
channel's resulting state. -/
theorem keyoff_frame_effect (insts : List Instrument) (rate : ℕ)
    (states : List ChannelState) (row : Row) (ch : ℕ) (st : ChannelState) (e : Event)
    (hst : states.get? ch = some st) (he : row.getD ch none = some e)
    (hnote : e.note = some 254) :
    (processRow insts rate states row).get? ch = some { st with playing := false }
    ∧ ∀ j, j ≠ ch →
        (processRow insts rate states row).get? j =
          (processRow insts rate states (row.set ch none)).get? j := by
  constructor
  · rw [processRow_get?, hst, he]
    simp [processEvent, hnote]
  · intro j hj
    rw [processRow_get?, processRow_get?]
    have hrow : (row.set ch none).getD j none = row.getD j none := by
      unfold List.getD
      rw [List.get?_set_ne _ _ (fun h => hj h.symm)]
    rw [hrow]

/-- Witness for C9: a concrete two-channel state with a key-off event on
channel 0. -/
theorem keyoff_frame_effect_witness :
    ([initState, initState].get? 0 = some initState)
    ∧ ([some ⟨some 254, none, none, none⟩, none].getD 0 none =
        some (⟨some 254, none, none, none⟩ : Event))
    ∧ (⟨some 254, none, none, none⟩ : Event).note = some 254
    ∧ ((processRow [] 44100 [initState, initState]
          [some ⟨some 254, none, none, none⟩, none]).get? 0 =
        some { initState with playing := false }
      ∧ ∀ j, j ≠ 0 →
          (processRow [] 44100 [initState, initState]
            [some ⟨some 254, none, none, none⟩, none]).get? j =
          (processRow [] 44100 [initState, initState]
            ([some ⟨some 254, none, none, none⟩, none].set 0 none)).get? j) :=
  ⟨by decide, by decide, by decide,
   keyoff_frame_effect [] 44100 [initState, initState]
     [some ⟨some 254, none, none, none⟩, none] 0 initState
     ⟨some 254, none, none, none⟩ (by decide) (by decide) (by decide)⟩

/-! Claim C10 -/

/-- Claim C10: an event with a note other than 254 whose stored instrument
byte is absent or 0, or whose resolved 0-based index is out of range of the
parsed instrument list, leaves the whole channel state unchanged. -/
theorem no_trigger_frame_effect (insts : List Instrument) (rate : ℕ) (st : ChannelState)
    (e : Event) (n : ℕ) (hnote : e.note = some n) (hn : n ≠ 254)
    (hinst : e.instrument = none ∨ e.instrument = some 0 ∨
      ∃ k, e.instrument = some k ∧ insts.length ≤ k - 1) :
    processEvent insts rate st (some e) = st := by
  rcases hinst with h | h | ⟨k, h, hk⟩
  · simp [processEvent, hnote, hn, h]
  · simp [processEvent, hnote, hn, h]
  · by_cases hk0 : k = 0
    · simp [processEvent, hnote, hn, h, hk0]
    · simp [processEvent, hnote, hn, h, hk0, Nat.not_lt.mpr hk]

/-- Witness for C10: a concrete event with note 64 and instrument byte 0. -/
theorem no_trigger_frame_effect_witness :
    (⟨some 64, some 0, none, none⟩ : Event).note = some 64
    ∧ (64 : ℕ) ≠ 254
    ∧ ((⟨some 64, some 0, none, none⟩ : Event).instrument = none
       ∨ (⟨some 64, some 0, none, none⟩ : Event).instrument = some 0
       ∨ ∃ k, (⟨some 64, some 0, none, none⟩ : Event).instrument = some k
           ∧ ([] : List Instrument).length ≤ k - 1)
    ∧ processEvent [] 44100 initState (some ⟨some 64, some 0, none, none⟩) = initState :=
  ⟨by decide, by decide, Or.inr (Or.inl (by decide)),
   no_trigger_frame_effect [] 44100 initState ⟨some 64, some 0, none, none⟩ 64
     (by decide) (by decide) (Or.inr (Or.inl (by decide)))⟩

/-! Claim C1 -/

/-- Claim C1 (refuted; the code has an out-of-bounds read): `buf150` parses
successfully, yet rendering the parsed module fails with an out-of-bounds
buffer read.  Its single instrument has `sample_len = 0` but
`loop_begin = 0 < loop_end = 5`, both taken untrusted from the file; on the
very first mixed sample the truncated position 0 reaches the sample length,
the loop wrap computes `0 + (0 - 5) mod 5 = 0`, and reading index 0 of the
empty sample buffer raises `IndexError` — so the wrapped read position is
not always a valid index and `render` does not always succeed. -/
theorem render_oob_crash_on_loop_past_length :
    (read_s3m buf150).isOk = true ∧ convert buf150 = .error "index out of range" :=
  ⟨by decide, by decide⟩

/-! Claim C3 -/

/-- Claim C3 (refuted at a concrete input): in `bufC3` the first
instrument-pointer-table entry points at a type-0 record (skipped) and the
second at a valid record whose sample is 2 bytes long; pattern 0, row 0,
channel 0 carries a note with stored instrument index 2.  The claim says
the channel must be assigned the instrument parsed from table entry 2 —
the one surviving instrument.  Instead, the code resolves index 2 against
the compacted parse-order list (`2 - 1 = 1 ≥ 1` parsed instruments), so no
assignment happens at all and the channel states stay at their initial
values. -/
theorem instrument_resolution_counterexample :
    (read_s3m bufC3).toOption.map (fun m => m.instruments.map (fun i => i.length))
      = some [2]
    ∧ (read_s3m bufC3).toOption.map
        (fun m => ((m.patterns.getD 0 []).getD 0 []).getD 0 none)
      = some (some ⟨some 64, some 2, none, none⟩)
    ∧ (read_s3m bufC3).toOption.map
        (fun m => processRow m.instruments m.sample_rate (initStates 32)
          ((m.patterns.getD 0 []).getD 0 []))
      = some (initStates 32) :=
  ⟨by decide, by decide, by decide⟩

/-- Claim C3 (amended): a triggering event's stored 1-based instrument
index `k` is resolved as position `k - 1` in the parse-order list of
successfully-decoded instruments — not via the pointer table's original
indexing — assigning that instrument, resetting the position, computing
the increment from the note, taking the event volume if present (else that
instrument's default) and setting `playing`. -/
theorem instrument_resolution_by_parse_order (insts : List Instrument) (rate : ℕ)
    (st : ChannelState) (e : Event) (n k : ℕ)
    (hnote : e.note = some n) (hn : n ≠ 254) (hinst : e.instrument = some k)
    (hk : k ≠ 0) (hlt : k - 1 < insts.length) :
    processEvent insts rate st (some e) =
      { sample_pos := 0
        increment := note_to_freq (some n) 8363 / (rate : ℚ)
        volume := match e.volume with
                  | some v => (v : ℚ) / 64
                  | none => (insts.get ⟨k - 1, hlt⟩).volume
        playing := true
        instrument := some (insts.get ⟨k - 1, hlt⟩) } := by
  simp [processEvent, hnote, hn, hinst, hk, hlt]

/-- Witness for the amended C3 at a concrete one-instrument list. -/
theorem instrument_resolution_by_parse_order_witness :
    (⟨some 64, some 1, some 32, none⟩ : Event).note = some 64
    ∧ (64 : ℕ) ≠ 254
    ∧ (⟨some 64, some 1, some 32, none⟩ : Event).instrument = some 1
    ∧ (1 : ℕ) ≠ 0
    ∧ 1 - 1 < [wInst].length
    ∧ processEvent [wInst] 44100 initState
        (some ⟨some 64, some 1, some 32, none⟩) =
      { sample_pos := 0
        increment := note_to_freq (some 64) 8363 / (44100 : ℚ)
        volume := (32 : ℚ) / 64
        playing := true
        instrument := some wInst } :=
  ⟨by decide, by decide, by decide, by decide, by decide,
   instrument_resolution_by_parse_order [wInst] 44100 initState
     ⟨some 64, some 1, some 32, none⟩ 64 1 (by decide) (by decide) (by decide)
     (by decide) (by decide)⟩

/-! Claim C6 -/

/-- Claim C6 (refuted at a concrete input): the packed stream `[33, 5]` has
a "what" byte `33` (channel 1, note+instrument expected) followed by a
single byte, so the 2-byte note+instrument read passes the end of the
stream during row 0.  The claim requires decoding to stop there with every
later row empty; instead only the row loop iteration ends, and row 1
re-reads the leftover byte `5` as a new "what" byte, producing a non-empty
slot on channel 5 of row 1. -/
theorem pattern_truncation_counterexample :
    ((decodePattern 32 [33, 5]).getD 0 []) = List.replicate 32 none
    ∧ ((decodePattern 32 [33, 5]).getD 1 []).getD 5 none
        = some ⟨none, none, none, none⟩ :=
  ⟨by decide, by decide⟩

/-- Decoding a row never changes the number of channel slots. -/
theorem decodeRow_fst_length :
    ∀ (fuel : ℕ) (bytes : List ℕ) (row : Row),
      ((decodeRow fuel bytes row).1).length = row.length := by
  intro fuel
  induction fuel with
  | zero => intro bytes row; rfl
  | succ f ih =>
    intro bytes row
    cases bytes with
    | nil => rfl
    | cons b rest =>
      by_cases hb : b = 0
      · simp [decodeRow, hb]
      · simp only [decodeRow, if_neg hb]
        split
        · rfl
        · split
          · rfl
          · split
            · rfl
            · rw [ih, List.length_set]

/-- Decoding `n` rows yields exactly `n` rows. -/
theorem decodeRows_fst_length (channels : ℕ) :
    ∀ (n : ℕ) (bytes : List ℕ), ((decodeRows channels n bytes).1).length = n := by
  intro n
  induction n with
  | zero => intro bytes; rfl
  | succ k ih => intro bytes; simp [decodeRows, ih]

/-- Every decoded row has exactly `channels` slots. -/
theorem decodeRows_row_length (channels : ℕ) :
    ∀ (n : ℕ) (bytes : List ℕ) (r : Row),
      r ∈ (decodeRows channels n bytes).1 → r.length = channels := by
  intro n
  induction n with
  | zero => intro bytes r hr; simp [decodeRows] at hr
  | succ k ih =>
    intro bytes r hr
    simp only [decodeRows, List.mem_cons] at hr
    rcases hr with rfl | hr
    · rw [decodeRow_fst_length, List.length_replicate]
    · exact ih _ _ hr

/-- Decoding a row from the empty stream returns the row unchanged. -/
theorem decodeRow_nil (fuel : ℕ) (row : Row) : decodeRow fuel [] row = (row, []) := by
  cases fuel <;> rfl

/-- Once the stream is exhausted, every remaining row decodes empty. -/
theorem decodeRows_nil (channels : ℕ) :
    ∀ n : ℕ, decodeRows channels n [] =
      (List.replicate n (List.replicate channels none), []) := by
  intro n
  induction n with
  | zero => rfl
  | succ k ih => simp [decodeRows, decodeRow_nil, ih, List.replicate_succ]

/-- Claim C6 (amended): every decoded pattern has exactly 64 rows of 32
channel slots each; when the packed stream ends prematurely, only the
current row's decoding stops — the next row resumes at the same stream
position, so leftover bytes may still populate later rows — and any row
decoded after the stream is fully consumed is empty. -/
theorem pattern_shape_amended (packed : List ℕ) (i : ℕ) (hi : i < 64)
    (n j : ℕ) (hj : j < n) :
    (decodePattern 32 packed).length = 64
    ∧ ((decodePattern 32 packed).getD i []).length = 32
    ∧ ((decodeRows 32 n []).1).getD j [] = List.replicate 32 none := by
  refine ⟨decodeRows_fst_length 32 64 packed, ?_, ?_⟩
  · have hlen : i < (decodePattern 32 packed).length := by
      rw [decodePattern, decodeRows_fst_length]; exact hi
    rw [List.getD_eq_getElem _ _ hlen]
    exact decodeRows_row_length 32 64 packed _ (List.getElem_mem hlen)
  · rw [decodeRows_nil]
    have hlen : j < (List.replicate n (List.replicate 32 (none : Option Event))).length := by
      simpa using hj
    rw [List.getD_eq_getElem _ _ hlen]
    simp

/-- Witness for the amended C6 at the truncated stream `[33, 5]`. -/
theorem pattern_shape_amended_witness :
    (decodePattern 32 [33, 5]).length = 64
    ∧ ((decodePattern 32 [33, 5]).getD 1 []).length = 32
    ∧ ((decodeRows 32 3 []).1).getD 1 [] = List.replicate 32 none :=
  pattern_shape_amended [33, 5] 1 (by decide) 3 1 (by decide)

/-! Claim C5 -/

/-- The per-row sample loop emits exactly as many samples as requested. -/
theorem renderRowAudio_ok_length :
    ∀ (n : ℕ) (states : List ChannelState) (out : List ℕ) (s2 : List ChannelState),
      renderRowAudio n states = .ok (out, s2) → out.length = n := by
  intro n
  induction n with
  | zero =>
    intro states out s2 h
    simp only [renderRowAudio, Except.ok.injEq, Prod.mk.injEq] at h
    rw [← h.1]
    rfl
  | succ k ih =>
    intro states out s2 h
    unfold renderRowAudio at h
    cases hm : mixChannels 0 states with
    | error e => simp [hm] at h
    | ok p =>
      obtain ⟨s, states1⟩ := p
      simp only [hm] at h
      cases hr : renderRowAudio k states1 with
      | error e => simp [hr] at h
      | ok q =>
        obtain ⟨out1, states2⟩ := q
        simp only [hr, Except.ok.injEq, Prod.mk.injEq] at h
        rw [← h.1, List.length_cons, ih states1 out1 states2 hr]

/-- The row loop emits `rows.length * T` samples. -/
theorem renderRows_ok_length (insts : List Instrument) (rate T : ℕ) :
    ∀ (rows : List Row) (states : List ChannelState) (out : List ℕ)
      (s2 : List ChannelState),
      renderRows insts rate T rows states = .ok (out, s2) →
      out.length = rows.length * T := by
  intro rows
  induction rows with
  | nil =>
    intro states out s2 h
    simp only [renderRows, Except.ok.injEq, Prod.mk.injEq] at h
    rw [← h.1]
    simp
  | cons row rows ih =>
    intro states out s2 h
    unfold renderRows at h
    cases ha : renderRowAudio T (processRow insts rate states row) with
    | error e => simp [ha] at h
    | ok p =>
      obtain ⟨a, s1⟩ := p
      simp only [ha] at h
      cases hb : renderRows insts rate T rows s1 with
      | error e => simp [hb] at h
      | ok q =>
        obtain ⟨b, s3⟩ := q
        simp only [hb, Except.ok.injEq, Prod.mk.injEq] at h
        rw [← h.1, List.length_append, renderRowAudio_ok_length T _ a s1 ha,
            ih s1 b s3 hb, List.length_cons]
        ring

/-- The order loop emits `64 * T` samples per in-range order entry, when
all patterns have 64 rows. -/
theorem renderOrders_ok_length (insts : List Instrument)
    (patterns : List (List Row)) (rate T : ℕ)
    (hpat : ∀ p ∈ patterns, p.length = 64) :
    ∀ (orders : List ℕ) (states : List ChannelState) (out : List ℕ)
      (s2 : List ChannelState),
      renderOrders insts patterns rate T orders states = .ok (out, s2) →
      out.length = (orders.countP (fun o => o < patterns.length)) * (64 * T) := by
  intro orders
  induction orders with
  | nil =>
    intro states out s2 h
    simp only [renderOrders, Except.ok.injEq, Prod.mk.injEq] at h
    rw [← h.1]
    simp
  | cons o os ih =>
    intro states out s2 h
    unfold renderOrders at h
    by_cases ho : o < patterns.length
    · rw [if_pos ho] at h
      cases ha : renderRows insts rate T (patterns.getD o []) states with
      | error e => simp only [ha] at h; exact Except.noConfusion h
      | ok p =>
        obtain ⟨a, s1⟩ := p
        simp only [ha] at h
        cases hb : renderOrders insts patterns rate T os s1 with
        | error e => simp only [hb] at h; exact Except.noConfusion h
        | ok q =>
          obtain ⟨b, s3⟩ := q
          simp only [hb, Except.ok.injEq, Prod.mk.injEq] at h
          have hmem : patterns.getD o [] ∈ patterns := by
            rw [List.getD_eq_getElem _ _ ho]
            exact List.getElem_mem ho
          have h64 : (patterns.getD o []).length = 64 := hpat _ hmem
          rw [← h.1, List.length_append,
              renderRows_ok_length insts rate T _ states a s1 ha, h64,
              ih s1 b s3 hb, List.countP_cons_of_pos _ _ (by simpa using ho)]
          ring
    · rw [if_neg ho] at h
      rw [ih states out s2 h, List.countP_cons_of_neg _ _ (by simpa using ho)]

/-- Patterns surviving the parse always have 64 rows. -/
theorem parsePatterns_rows (data : List ℕ) :
    ∀ (ptrs : List ℕ) (p : List Row), p ∈ parsePatterns data ptrs → p.length = 64 := by
  intro ptrs
  induction ptrs with
  | nil => intro p hp; simp [parsePatterns] at hp
  | cons ptr rest ih =>
    intro p hp
    unfold parsePatterns at hp
    by_cases h1 : data.length < ptr * 16 + 2
    · rw [if_pos h1] at hp; exact ih p hp
    · rw [if_neg h1] at hp
      by_cases h2 : data.length < ptr * 16 + 2 + u16 data (ptr * 16)
      · rw [if_pos h2] at hp; exact ih p hp
      · rw [if_neg h2] at hp
        rcases List.mem_cons.mp hp with rfl | hp
        · exact decodeRows_fst_length 32 64 _
        · exact ih p hp

/-- A successfully parsed module's patterns all have 64 rows. -/
theorem read_s3m_patterns_rows (data : List ℕ) (m : Module)
    (hparse : read_s3m data = .ok m) :
    ∀ p ∈ m.patterns, p.length = 64 := by
  unfold read_s3m at hparse
  by_cases h1 : data.length < 96
  · rw [if_pos h1] at hparse; cases hparse
  · rw [if_neg h1] at hparse
    simp only at hparse
    by_cases h2 : data.length < 96 + u16 data 28
    · rw [if_pos h2] at hparse; cases hparse
    · rw [if_neg h2] at hparse
      by_cases h3 : data.length < 96 + u16 data 28 + 2 * u16 data 30 + 2 * u16 data 32
      · rw [if_pos h3] at hparse; cases hparse
      · rw [if_neg h3] at hparse
        cases hparse
        exact parsePatterns_rows data _

/-- Claim C5: for every parsed module whose rendering succeeds, the output
length is `N * 64 * speed * (sampleRate / (tempo * 4 / 60))` with integer
floor division in exactly that order, where `N` counts the order entries
whose pattern index is in range; out-of-range order entries consume no
output time. -/
theorem render_length_formula (data : List ℕ) (m : Module) (out : List ℕ)
    (hparse : read_s3m data = .ok m) (hrender : render m = .ok out) :
    out.length = m.orders.countP (fun o => o < m.patterns.length) * 64 * m.speed *
      (m.sample_rate / (m.tempo * 4 / 60)) := by
  have hpat := read_s3m_patterns_rows data m hparse
  unfold render at hrender
  cases ho : renderOrders m.instruments m.patterns m.sample_rate
      (m.speed * (m.sample_rate / (m.tempo * 4 / 60))) m.orders (initStates m.channels) with
  | error e => simp [ho] at hrender
  | ok p =>
    obtain ⟨o, s⟩ := p
    simp only [ho, Except.ok.injEq] at hrender
    rw [← hrender,
        renderOrders_ok_length m.instruments m.patterns m.sample_rate _ hpat
          m.orders (initStates m.channels) o s ho]
    ring

/-- Witness for C5 at the minimal 96-byte module (zero orders, output `[]`). -/
theorem render_length_formula_witness :
    read_s3m minBuf = .ok minM ∧ render minM = .ok []
    ∧ ([] : List ℕ).length =
        minM.orders.countP (fun o => o < minM.patterns.length) * 64 * minM.speed *
          (minM.sample_rate / (minM.tempo * 4 / 60)) :=
  ⟨by decide, by decide,
   render_length_formula minBuf minM [] (by decide) (by decide)⟩

/-! Claim C7 -/

/-- Within one octave, consecutive note-table entries strictly increase. -/
theorem noteTable_step : ∀ r : ℕ, r < 11 → noteTable.getD r 0 < noteTable.getD (r+1) 0 := by
  intro r hr
  interval_cases r <;> norm_num [noteTable]

/-- The top of an octave stays below twice the bottom of the next. -/
theorem noteTable_wrap : noteTable.getD 11 0 < 2 * noteTable.getD 0 0 := by
  norm_num [noteTable]

/-- The linear-index frequency map increases at every step. -/
theorem noteVal_lt_succ (k : ℕ) : noteVal k < noteVal (k+1) := by
  rcases Nat.lt_or_ge (k % 12) 11 with h | h
  · have e1 : (k+1) % 12 = k % 12 + 1 := by omega
    have e2 : (k+1) / 12 = k / 12 := by omega
    unfold noteVal
    rw [e1, e2]
    exact mul_lt_mul_of_pos_right (noteTable_step _ h) (zpow_pos (by norm_num) _)
  · have h11 : k % 12 = 11 := by omega
    have e1 : (k+1) % 12 = 0 := by omega
    have e2 : (k+1) / 12 = k / 12 + 1 := by omega
    unfold noteVal
    rw [e1, e2, h11]
    have ecast : ((k / 12 + 1 : ℕ) : ℤ) - 4 = (((k / 12 : ℕ) : ℤ) - 4) + 1 := by
      push_cast
      ring
    rw [ecast, zpow_add_one₀ (by norm_num : (2:ℚ) ≠ 0)]
    have hp : (0:ℚ) < (2:ℚ) ^ (((k / 12 : ℕ) : ℤ) - 4) := zpow_pos (by norm_num) _
    calc noteTable.getD 11 0 * (2:ℚ) ^ (((k / 12 : ℕ) : ℤ) - 4)
        < (2 * noteTable.getD 0 0) * (2:ℚ) ^ (((k / 12 : ℕ) : ℤ) - 4) :=
          mul_lt_mul_of_pos_right noteTable_wrap hp
      _ = noteTable.getD 0 0 * ((2:ℚ) ^ (((k / 12 : ℕ) : ℤ) - 4) * 2) := by ring

/-- The linear-index frequency map is strictly monotone. -/
theorem noteVal_strictMono : StrictMono noteVal :=
  strictMono_nat_of_lt_succ noteVal_lt_succ

/-- For an in-range semitone, `note_to_freq` factors through `noteVal` at
the linear index `octave * 12 + semitone`. -/
theorem note_to_freq_eq_noteVal (n : ℕ) (c2spd : ℚ) (hs : n &&& 15 < 12) :
    note_to_freq (some n) c2spd =
      noteVal ((n >>> 4) * 12 + (n &&& 15)) * (c2spd / 8363) := by
  have h254 : n ≠ 254 := by
    intro h
    subst h
    exact absurd hs (by decide)
  have hm : ((n >>> 4) * 12 + (n &&& 15)) % 12 = n &&& 15 := by omega
  have hd : ((n >>> 4) * 12 + (n &&& 15)) / 12 = n >>> 4 := by omega
  unfold note_to_freq noteVal
  rw [hm, hd]
  simp only [h254, if_false, Nat.not_le.mpr hs, ite_false]
  ring

/-- Claim C7: for a fixed positive `c2spd`, `note_to_freq` is strictly
increasing in `octave * 12 + semitone` over notes with semitone below 12,
and it returns 0 for the key-off sentinel 254 and for every note whose
low-nibble semitone is 12 or more. -/
theorem note_to_freq_mono_and_zero (c2spd : ℚ) (hc : 0 < c2spd) (n1 n2 n3 : ℕ)
    (h1 : n1 &&& 15 < 12) (h2 : n2 &&& 15 < 12)
    (hlt : (n1 >>> 4) * 12 + (n1 &&& 15) < (n2 >>> 4) * 12 + (n2 &&& 15))
    (h3 : 12 ≤ n3 &&& 15) :
    note_to_freq (some n1) c2spd < note_to_freq (some n2) c2spd
    ∧ note_to_freq (some 254) c2spd = 0
    ∧ note_to_freq (some n3) c2spd = 0 := by
  refine ⟨?_, by simp [note_to_freq], ?_⟩
  · rw [note_to_freq_eq_noteVal n1 c2spd h1, note_to_freq_eq_noteVal n2 c2spd h2]
    exact mul_lt_mul_of_pos_right (noteVal_strictMono hlt) (div_pos hc (by norm_num))
  · by_cases h254 : n3 = 254
    · simp [note_to_freq, h254]
    · simp [note_to_freq, h254, h3]

/-- Witness for C7 at notes `0x40 < 0x41` (octave 4, semitones 0 and 1),
the sentinel 254, and semitone-14 note `0x4E`, with the default c2spd. -/
theorem note_to_freq_mono_and_zero_witness :
    (0:ℚ) < 8363 ∧ 64 &&& 15 < 12 ∧ 65 &&& 15 < 12
    ∧ (64 >>> 4) * 12 + (64 &&& 15) < (65 >>> 4) * 12 + (65 &&& 15)
    ∧ 12 ≤ 78 &&& 15
    ∧ (note_to_freq (some 64) 8363 < note_to_freq (some 65) 8363
       ∧ note_to_freq (some 254) 8363 = 0
       ∧ note_to_freq (some 78) 8363 = 0) :=
  ⟨by norm_num, by decide, by decide, by decide, by decide,
   note_to_freq_mono_and_zero 8363 (by norm_num) 64 65 78 (by decide) (by decide)
     (by decide) (by decide)⟩

/-! Claim C2 -/

/-- Truncation of an integer-valued rational is that integer. -/
theorem pyInt_intCast (z : ℤ) : pyInt ((z : ℚ)) = z := by
  unfold pyInt
  rw [Rat.num_intCast, Rat.den_intCast]
  simp

/-- On sums that are integer multiples of `1 / 64`, the source's truncating
conversion agrees with the spec's rounding conversion: the scaled value
`s * 128 + 128` is an exact integer, so truncation and rounding coincide. -/
theorem pcmByte_eq_pcmRoundByte (s : ℚ) (h : sum64 s) : pcmByte s = pcmRoundByte s := by
  obtain ⟨z, hz⟩ := h
  have hs : s * 128 + 128 = ((2 * z + 128 : ℤ) : ℚ) := by
    have h2 : s * 128 = 2 * (s * 64) := by ring
    rw [h2, hz]
    push_cast
    ring
  unfold pcmByte pcmRoundByte
  rw [hs, pyInt_intCast, round_intCast]

/-- Zero is a multiple of `1 / 64`. -/
theorem sum64_zero : sum64 0 := ⟨0, by norm_num⟩

/-- Multiples of `1 / 64` are closed under addition. -/
theorem sum64_add {a b : ℚ} (ha : sum64 a) (hb : sum64 b) : sum64 (a + b) := by
  obtain ⟨x, hx⟩ := ha
  obtain ⟨y, hy⟩ := hb
  exact ⟨x + y, by rw [add_mul, hx, hy]; push_cast; ring⟩

/-- A channel contribution `(byte - 128) * volume` with a `k / 64` volume
is an integer multiple of `1 / 64`. -/
theorem sum64_contrib (b : ℕ) (q : ℚ) (h : vol64 q) : sum64 (((b:ℚ) - 128) * q) := by
  obtain ⟨k, hk⟩ := h
  refine ⟨((b:ℤ) - 128) * k, ?_⟩
  rw [hk]
  push_cast
  field_simp

/-- One mixing step never changes the channel volume, and its contribution
is an integer multiple of `1 / 64`. -/
theorem mixOne_ok (st : ChannelState) (c : ℚ) (st' : ChannelState)
    (h : mixOne st = .ok (c, st')) (hv : vol64 st.volume) :
    st'.volume = st.volume ∧ sum64 c := by
  unfold mixOne at h
  cases hi : st.instrument with
  | none =>
    simp only [hi, Except.ok.injEq, Prod.mk.injEq] at h
    rw [← h.1, ← h.2]
    exact ⟨rfl, sum64_zero⟩
  | some inst =>
    simp only [hi] at h
    cases hb : st.playing with
    | false =>
      simp only [hb, Bool.false_eq_true, if_false, Except.ok.injEq, Prod.mk.injEq] at h
      rw [← h.1, ← h.2]
      exact ⟨rfl, sum64_zero⟩
    | true =>
      simp only [hb, if_true] at h
      by_cases hlen : (inst.length : ℤ) ≤ pyInt st.sample_pos
      · rw [if_pos hlen] at h
        by_cases hloop : inst.loop_begin < inst.loop_end
        · rw [if_pos hloop] at h
          cases hpi : pyIndex inst.sample
              ((inst.loop_begin : ℤ) + (pyInt st.sample_pos - (inst.loop_end : ℤ)) %
                ((inst.loop_end : ℤ) - (inst.loop_begin : ℤ))) with
          | none => simp only [hpi] at h; exact Except.noConfusion h
          | some b =>
            simp only [hpi, Except.ok.injEq, Prod.mk.injEq] at h
            rw [← h.1, ← h.2]
            exact ⟨rfl, sum64_contrib b st.volume hv⟩
        · rw [if_neg hloop] at h
          simp only [Except.ok.injEq, Prod.mk.injEq] at h
          rw [← h.1, ← h.2]
          exact ⟨rfl, sum64_zero⟩
      · rw [if_neg hlen] at h
        cases hpi : pyIndex inst.sample (pyInt st.sample_pos) with
        | none => simp only [hpi] at h; exact Except.noConfusion h
        | some b =>
          simp only [hpi, Except.ok.injEq, Prod.mk.injEq] at h
          rw [← h.1, ← h.2]
          exact ⟨rfl, sum64_contrib b st.volume hv⟩

/-- The channel-summing loop keeps every volume's `k / 64` shape and
produces a sum that is an integer multiple of `1 / 64`. -/
theorem mixChannels_ok :
    ∀ (states : List ChannelState) (acc s : ℚ) (states' : List ChannelState),
      mixChannels acc states = .ok (s, states') → sum64 acc → statesVol64 states →
      sum64 s ∧ statesVol64 states' := by
  intro states
  induction states with
  | nil =>
    intro acc s st' h ha hv
    simp only [mixChannels, Except.ok.injEq, Prod.mk.injEq] at h
    rw [← h.1, ← h.2]
    exact ⟨ha, by intro x hx; simp at hx⟩
  | cons st sts ih =>
    intro acc s st' h ha hv
    unfold mixChannels at h
    cases hm : mixOne st with
    | error e => simp only [hm] at h; exact Except.noConfusion h
    | ok p =>
      obtain ⟨c, st1⟩ := p
      simp only [hm] at h
      cases hrec : mixChannels (acc + c) sts with
      | error e => simp only [hrec] at h; exact Except.noConfusion h
      | ok q =>
        obtain ⟨s2, rest'⟩ := q
        simp only [hrec, Except.ok.injEq, Prod.mk.injEq] at h
        have hst := hv st (by simp)
        have hm1 := mixOne_ok st c st1 hm hst
        have hsts : statesVol64 sts := fun x hx => hv x (List.mem_cons_of_mem _ hx)
        have hrec' := ih (acc + c) s2 rest' hrec (sum64_add ha hm1.2) hsts
        refine ⟨by rw [← h.1]; exact hrec'.1, ?_⟩
        rw [← h.2]
        intro x hx
        rcases List.mem_cons.mp hx with rfl | hx
        · rw [hm1.1]; exact hst
        · exact hrec'.2 x hx

/-- Event processing keeps the channel volume in `k / 64` shape, provided
instrument default volumes have that shape. -/
theorem processEvent_vol64 (insts : List Instrument) (rate : ℕ) (st : ChannelState)
    (ev : Option Event) (hv : vol64 st.volume) (hins : instsVol64 insts) :
    vol64 (processEvent insts rate st ev).volume := by
  cases ev with
  | none => exact hv
  | some e =>
    cases hn : e.note with
    | none => simpa [processEvent, hn] using hv
    | some n =>
      by_cases h254 : n = 254
      · simpa [processEvent, hn, h254] using hv
      · cases hk : e.instrument with
        | none => simpa [processEvent, hn, h254, hk] using hv
        | some k =>
          by_cases hk0 : k = 0
          · simpa [processEvent, hn, h254, hk, hk0] using hv
          · by_cases hlt : k - 1 < insts.length
            · cases hev : e.volume with
              | some v =>
                simp only [processEvent, hn, h254, hk, hk0, hlt, hev]
                exact ⟨v, rfl⟩
              | none =>
                simp only [processEvent, hn, h254, hk, hk0, hlt, hev]
                exact hins _ (List.get_mem insts (k - 1) hlt)
            · simpa [processEvent, hn, h254, hk, hk0, hlt] using hv

/-- The per-row event pass preserves the `k / 64` volume shape. -/
theorem processRow_vol64 (insts : List Instrument) (rate : ℕ)
    (hins : instsVol64 insts) :
    ∀ (states : List ChannelState) (row : Row), statesVol64 states →
      statesVol64 (processRow insts rate states row) := by
  intro states
  induction states with
  | nil =>
    intro row hv x hx
    cases row <;> simp [processRow] at hx
  | cons st sts ih =>
    intro row hv
    cases row with
    | nil => exact hv
    | cons ev evs =>
      intro x hx
      rcases List.mem_cons.mp hx with rfl | hx
      · exact processEvent_vol64 _ _ _ _ (hv st (by simp)) hins
      · exact ih evs (fun y hy => hv y (List.mem_cons_of_mem _ hy)) x hx

/-- The fresh channel states all carry volume `0 = 0 / 64`. -/
theorem initStates_vol64 (n : ℕ) : statesVol64 (initStates n) := by
  intro st hst
  rw [initStates] at hst
  rw [List.eq_of_mem_replicate hst]
  exact ⟨0, by norm_num [initState]⟩

/-- Every parsed instrument's default volume is `byte / 64`. -/
theorem parseInstruments_vol64 (data : List ℕ) :
    ∀ ptrs : List ℕ, instsVol64 (parseInstruments data ptrs) := by
  intro ptrs
  induction ptrs with
  | nil => intro i hi; simp [parseInstruments] at hi
  | cons ptr rest ih =>
    intro i hi
    unfold parseInstruments at hi
    by_cases h1 : data.length < ptr * 16 + 24
    · rw [if_pos h1] at hi; exact ih i hi
    · rw [if_neg h1] at hi
      by_cases h2 : data.getD (ptr * 16) 0 = 1
      · rw [if_pos h2] at hi
        by_cases h3 : data.length < u32 data (ptr * 16 + 13) * 16 + u16 data (ptr * 16 + 17)
        · rw [if_pos h3] at hi; exact ih i hi
        · rw [if_neg h3] at hi
          rcases List.mem_cons.mp hi with rfl | hi
          · exact ⟨data.getD (ptr * 16 + 23) 0, rfl⟩
          · exact ih i hi
      · rw [if_neg h2] at hi; exact ih i hi

/-- A successfully parsed module's instrument list is the instrument-table
parse of its pointer table. -/
theorem read_s3m_ok_instruments (data : List ℕ) (m : Module)
    (hparse : read_s3m data = .ok m) :
    m.instruments =
      parseInstruments data (u16Table data (96 + u16 data 28) (u16 data 30)) := by
  unfold read_s3m at hparse
  by_cases h1 : data.length < 96
  · rw [if_pos h1] at hparse; cases hparse
  · rw [if_neg h1] at hparse
    simp only at hparse
    by_cases h2 : data.length < 96 + u16 data 28
    · rw [if_pos h2] at hparse; cases hparse
    · rw [if_neg h2] at hparse
      by_cases h3 : data.length < 96 + u16 data 28 + 2 * u16 data 30 + 2 * u16 data 32
      · rw [if_pos h3] at hparse; cases hparse
      · rw [if_neg h3] at hparse
        cases hparse
        rfl

/-- The sample loop of the source and the spec's rounding variant agree on
states whose volumes are `k / 64` multiples, and such states stay that way. -/
theorem renderRowAudio_spec (n : ℕ) :
    ∀ states : List ChannelState, statesVol64 states →
      renderRowAudio n states = renderRowAudioSpec n states
      ∧ ∀ out s', renderRowAudio n states = .ok (out, s') → statesVol64 s' := by
  induction n with
  | zero =>
    intro states hv
    refine ⟨rfl, ?_⟩
    intro out s' h
    simp only [renderRowAudio, Except.ok.injEq, Prod.mk.injEq] at h
    rw [← h.2]
    exact hv
  | succ k ih =>
    intro states hv
    cases hm : mixChannels 0 states with
    | error e =>
      constructor
      · unfold renderRowAudio renderRowAudioSpec
        rw [hm]
      · intro out s' h
        unfold renderRowAudio at h
        simp only [hm] at h
        exact Except.noConfusion h
    | ok p =>
      obtain ⟨s, states1⟩ := p
      have hm' := mixChannels_ok states 0 s states1 hm sum64_zero hv
      have ihr := ih states1 hm'.2
      constructor
      · unfold renderRowAudio renderRowAudioSpec
        simp only [hm]
        rw [← ihr.1, pcmByte_eq_pcmRoundByte s hm'.1]
      · intro out s' h
        unfold renderRowAudio at h
        simp only [hm] at h
        cases hr : renderRowAudio k states1 with
        | error e => simp only [hr] at h; exact Except.noConfusion h
        | ok q =>
          obtain ⟨o1, s2⟩ := q
          simp only [hr, Except.ok.injEq, Prod.mk.injEq] at h
          rw [← h.2]
          exact ihr.2 o1 s2 hr

/-- The row loop of the source and the spec's rounding variant agree, and
the `k / 64` volume shape survives each row. -/
theorem renderRows_spec (insts : List Instrument) (rate T : ℕ)
    (hins : instsVol64 insts) :
    ∀ (rows : List Row) (states : List ChannelState), statesVol64 states →
      renderRows insts rate T rows states = renderRowsSpec insts rate T rows states
      ∧ ∀ out s', renderRows insts rate T rows states = .ok (out, s') →
          statesVol64 s' := by
  intro rows
  induction rows with
  | nil =>
    intro states hv
    refine ⟨rfl, ?_⟩
    intro out s' h
    simp only [renderRows, Except.ok.injEq, Prod.mk.injEq] at h
    rw [← h.2]
    exact hv
  | cons row rows ih =>
    intro states hv
    have hrow : statesVol64 (processRow insts rate states row) :=
      processRow_vol64 insts rate hins states row hv
    have hra := renderRowAudio_spec T (processRow insts rate states row) hrow
    cases ha : renderRowAudio T (processRow insts rate states row) with
    | error e =>
      constructor
      · unfold renderRows renderRowsSpec
        rw [← hra.1, ha]
      · intro out s' h
        unfold renderRows at h
        simp only [ha] at h
        exact Except.noConfusion h
    | ok p =>
      obtain ⟨a, s1⟩ := p
      have hs1 : statesVol64 s1 := hra.2 a s1 ha
      have ihr := ih s1 hs1
      constructor
      · unfold renderRows renderRowsSpec
        rw [← hra.1]
        simp only [ha]
        rw [← ihr.1]
      · intro out s' h
        unfold renderRows at h
        simp only [ha] at h
        cases hb : renderRows insts rate T rows s1 with
        | error e => simp only [hb] at h; exact Except.noConfusion h
        | ok q =>
          obtain ⟨b, s3⟩ := q
          simp only [hb, Except.ok.injEq, Prod.mk.injEq] at h
          rw [← h.2]
          exact ihr.2 b s3 hb

/-- The order loop of the source and the spec's rounding variant agree. -/
theorem renderOrders_spec (insts : List Instrument) (patterns : List (List Row))
    (rate T : ℕ) (hins : instsVol64 insts) :
    ∀ (orders : List ℕ) (states : List ChannelState), statesVol64 states →
      renderOrders insts patterns rate T orders states =
        renderOrdersSpec insts patterns rate T orders states := by
  intro orders
  induction orders with
  | nil => intro states hv; rfl
  | cons o os ih =>
    intro states hv
    by_cases ho : o < patterns.length
    · have hrs := renderRows_spec insts rate T hins (patterns.getD o []) states hv
      cases ha : renderRows insts rate T (patterns.getD o []) states with
      | error e =>
        unfold renderOrders renderOrdersSpec
        rw [if_pos ho, if_pos ho, ← hrs.1, ha]
      | ok p =>
        obtain ⟨a, s1⟩ := p
        have hs1 : statesVol64 s1 := hrs.2 a s1 ha
        unfold renderOrders renderOrdersSpec
        rw [if_pos ho, if_pos ho, ← hrs.1]
        simp only [ha]
        rw [ih s1 hs1]
    · unfold renderOrders renderOrdersSpec
      rw [if_neg ho, if_neg ho]
      exact ih states hv

/-- Claim C2: for every parsed module, the source's rendering — which
converts each channel sum with truncation, `max(min(int(s*128+128),255),0)`
— produces exactly the output of the spec's stated conversion
`clamp(round(sum*128+128), 0, 255)`: every reachable channel volume is a
`k / 64` multiple, so every channel sum scaled by 128 is an exact integer
and truncation equals rounding to the nearest integer on every appended
sample. -/
theorem render_eq_renderSpec_round (data : List ℕ) (m : Module)
    (hparse : read_s3m data = .ok m) : render m = renderSpec m := by
  have hins : instsVol64 m.instruments := by
    rw [read_s3m_ok_instruments data m hparse]
    exact parseInstruments_vol64 data _
  simp only [render, renderSpec]
  rw [renderOrders_spec m.instruments m.patterns m.sample_rate _ hins m.orders
      (initStates m.channels) (initStates_vol64 m.channels)]

/-- Witness for C2 at the minimal parsed module. -/
theorem render_eq_renderSpec_round_witness :
    read_s3m minBuf = .ok minM ∧ render minM = renderSpec minM :=
  ⟨by decide, render_eq_renderSpec_round minBuf minM (by decide)⟩

end S3M
